import Mathlib

/-!
# goSpider: SOCKS5 front-end (`src/goSpider/main.go`)

A shallow embedding of `handShake`, `getRequest` and `handleConnection`.

* A Go `byte` is a `Fin 256`, so byte arithmetic wraps modulo 256 exactly as
  `uint8` arithmetic does.  A Go `int` is a `Nat` (every value that occurs is
  below 2^10).  A Go `string` is the list of its bytes.
* The client connection is explicit state: the bytes the peer still has to
  deliver, how many `Write` calls will still succeed, and the trace of
  observable events (writes to the client, the upstream dial, socket closes).
* `io.ReadAtLeast` may return any count between `min` and what fits and is
  available; that count is supplied as the argument `n₀` of the embedded
  function ("the size of the initial read").
* A Go run-time panic (slice bounds out of range) is the outcome
  `Exec.panicked`.
-/

namespace GoSpider

/-- A Go `byte`. -/
abbrev Byte := Fin 256

/-- The error values of `main.go` (lines 42-49), plus `errConn` standing for
any error surfaced by the connection itself (EOF, timeout, failed write). -/
inductive Error
  | errAddrType
  | errVer
  | errMethod
  | errAuthExtraData
  | errReqExtraData
  | errCmd
  | errConn
  deriving DecidableEq

/-- Observable events of one session. -/
inductive Event
  | write (bs : List Byte)
  | dial (rawaddr : List Byte) (ok : Bool)
  | closeClient
  | closeRemote
  deriving DecidableEq

/-- The client connection together with the session trace. -/
structure Conn where
  /-- bytes sent by the peer and not yet read -/
  incoming : List Byte
  /-- number of `Write` calls that will still succeed -/
  wbudget : Nat
  /-- events so far, oldest first -/
  log : List Event
  deriving DecidableEq

/-- Outcome of running a Go function: it returns, or it panics. -/
inductive Exec (α : Type)
  | returned (a : α)
  | panicked
  deriving DecidableEq

def socksVer5 : Byte := 5
def socksCmdConnect : Byte := 1

/-! ## Connection and buffer primitives (Go runtime and standard library) -/

/-- Append an event to the trace. -/
def logEv (c : Conn) (e : Event) : Conn :=
  { c with log := c.log ++ [e] }

/-- Go `conn.Write(bs)`: succeeds while the write budget lasts. -/
def connWrite (c : Conn) (bs : List Byte) : Conn × Option Error :=
  match c.wbudget with
  | 0 => (c, some Error.errConn)
  | k + 1 => ({ c with wbudget := k, log := c.log ++ [Event.write bs] }, none)

/-- Go `copy(buf[off:], data)`: overwrite `buf` from offset `off` with `data`. -/
def copyAt (buf : List Byte) (off : Nat) (data : List Byte) : List Byte :=
  buf.take off ++ data ++ buf.drop (off + data.length)

/-- Go `buf[lo:hi]`: `none` is the run-time panic "slice bounds out of range". -/
def slice (buf : List Byte) (lo hi : Nat) : Option (List Byte) :=
  if lo ≤ hi ∧ hi ≤ buf.length then some ((buf.take hi).drop lo) else none

/-- Go `io.ReadAtLeast(conn, buf, min)`, where `n₀` is the number of bytes the
network has delivered when the call returns (cut to what the buffer holds and
what the peer sent, and raised to `min`).  Fewer than `min` bytes before EOF or
timeout is an error.  Returns the count and the updated buffer. -/
def readAtLeast (c : Conn) (buf : List Byte) (min n₀ : Nat) :
    Conn × Except Error (Nat × List Byte) :=
  if buf.length < min then (c, Except.error Error.errConn)
  else if c.incoming.length < min then
    ({ c with incoming := [] }, Except.error Error.errConn)
  else
    let n := Nat.max min (Nat.min n₀ (Nat.min buf.length c.incoming.length))
    ({ c with incoming := c.incoming.drop n },
      Except.ok (n, copyAt buf 0 (c.incoming.take n)))

/-- Go `io.ReadFull(conn, p)` for a destination `p` of length `k`: exactly `k`
bytes or an error. -/
def readFull (c : Conn) (k : Nat) : Conn × Except Error (List Byte) :=
  if c.incoming.length < k then
    ({ c with incoming := [] }, Except.error Error.errConn)
  else ({ c with incoming := c.incoming.drop k }, Except.ok (c.incoming.take k))

/-- Bytes of an ASCII string literal. -/
def bytesOf (s : String) : List Byte :=
  s.toList.map (fun ch => Fin.ofNat ch.toNat)

/-- Go `strconv.Itoa` on a non-negative value: decimal digits. -/
def itoa (v : Nat) : List Byte :=
  (Nat.toDigits 10 v).map (fun ch => Fin.ofNat ch.toNat)

/-- Go `net.JoinHostPort`: "host:port", or "[host]:port" when host contains a
colon (58 is ':', 91 is '[', 93 is ']'). -/
def joinHostPort (host port : List Byte) : List Byte :=
  if (58 : Byte) ∈ host then [(91 : Byte)] ++ host ++ [(93 : Byte), (58 : Byte)] ++ port
  else host ++ [(58 : Byte)] ++ port

/-- Go `binary.BigEndian.Uint16`. -/
def bigEndianUint16 (b : List Byte) : Nat :=
  (b.getD 0 0).val * 256 + (b.getD 1 0).val

/-! ## `handShake` (main.go lines 60-95) -/

namespace handShake
def idVer : Nat := 0
def idNmethod : Nat := 1
end handShake

/-- Lines 92-94: send confirmation, version 5, no authentication required. -/
def sendConfirmation (c : Conn) : Conn × Exec (Option Error) :=
  let r := connWrite c [socksVer5, 0]
  (r.1, Exec.returned r.2)

/-- Function `handShake(conn)`; `n₀` is the size of the initial read. -/
def handShake (c : Conn) (n₀ : Nat) : Conn × Exec (Option Error) :=
  let buf := List.replicate 258 (0 : Byte)
  match readAtLeast c buf (handShake.idNmethod + 1) n₀ with
  | (c, Except.error e) => (c, Exec.returned (some e))
  | (c, Except.ok (n, buf)) =>
    if buf.getD handShake.idVer 0 ≠ socksVer5 then (c, Exec.returned (some Error.errVer))
    else
      let nmethod := (buf.getD handShake.idNmethod 0).val
      let msgLen := nmethod + 2
      if n = msgLen then sendConfirmation c
      else if n < msgLen then
        match slice buf n msgLen with
        | none => (c, Exec.panicked)
        | some dst =>
          match readFull c dst.length with
          | (c, Except.error e) => (c, Exec.returned (some e))
          | (c, Except.ok _) => sendConfirmation c
      else (c, Exec.returned (some Error.errAuthExtraData))

/-! ## `getRequest` (main.go lines 97-172) -/

namespace getRequest
def idVer : Nat := 0
def idCmd : Nat := 1
def idType : Nat := 3
def idIP0 : Nat := 4
def idDmLen : Nat := 4
def idDm0 : Nat := 5
def typeIPv4 : Byte := 1
def typeDm : Byte := 3
def typeIPv6 : Byte := 4
def IPv4len : Nat := 4
def IPv6len : Nat := 16
def lenIPv4 : Nat := 3 + 1 + IPv4len + 2
def lenIPv6 : Nat := 3 + 1 + IPv6len + 2
def lenDmBase : Nat := 3 + 1 + 1 + 2
end getRequest

/-- The three results of `getRequest`. -/
structure Request where
  rawaddr : List Byte
  host : List Byte
  err : Option Error
  deriving DecidableEq

section
open getRequest

/-- Lines 158-169: the diagnostic rendering of the target, executed only when
`debug` is set.  `ipString` is `net.IP.String`.  The upper bound of the domain
slice, `idDm0+buf[idDmLen]`, is a `byte` expression (an untyped constant plus a
`byte`), so it is computed modulo 256. -/
def debugHost (ipString : List Byte → List Byte) (buf : List Byte) (reqLen : Nat) :
    Option (List Byte) :=
  let t := buf.getD idType 0
  let host : Option (List Byte) :=
    if t = typeIPv4 then (slice buf idIP0 (idIP0 + IPv4len)).map ipString
    else if t = typeIPv6 then (slice buf idIP0 (idIP0 + IPv6len)).map ipString
    else if t = typeDm then
      slice buf idDm0 ((Fin.ofNat idDm0 : Byte) + buf.getD idDmLen 0).val
    else some []
  match host with
  | none => none
  | some host =>
    match slice buf (reqLen - 2) reqLen with
    | none => none
    | some p => some (joinHostPort host (itoa (bigEndianUint16 p)))

/-- Lines 156-171: take `rawaddr`, render `host` in debug mode, return. -/
def finishRequest (debug : Bool) (ipString : List Byte → List Byte) (c : Conn)
    (buf : List Byte) (reqLen : Nat) : Conn × Exec Request :=
  match slice buf idType reqLen with
  | none => (c, Exec.panicked)
  | some rawaddr =>
    if debug then
      match debugHost ipString buf reqLen with
      | none => (c, Exec.panicked)
      | some host => (c, Exec.returned ⟨rawaddr, host, none⟩)
    else (c, Exec.returned ⟨rawaddr, [], none⟩)

/-- Function `getRequest(conn)`; `debug` is the package variable of that name
(line 40), `n₀` is the size of the initial read. -/
def getRequest (debug : Bool) (ipString : List Byte → List Byte) (c : Conn) (n₀ : Nat) :
    Conn × Exec Request :=
  let buf := List.replicate 263 (0 : Byte)
  match readAtLeast c buf (idDmLen + 1) n₀ with
  | (c, Except.error e) => (c, Exec.returned ⟨[], [], some e⟩)
  | (c, Except.ok (n, buf)) =>
    if buf.getD idVer 0 ≠ socksVer5 then (c, Exec.returned ⟨[], [], some Error.errVer⟩)
    else if buf.getD idCmd 0 ≠ socksCmdConnect then
      (c, Exec.returned ⟨[], [], some Error.errCmd⟩)
    else
      let t := buf.getD idType 0
      let reqLen? : Option Nat :=
        if t = typeIPv4 then some lenIPv4
        else if t = typeIPv6 then some lenIPv6
        else if t = typeDm then some ((buf.getD idDmLen 0).val + lenDmBase)
        else none
      match reqLen? with
      | none => (c, Exec.returned ⟨[], [], some Error.errAddrType⟩)
      | some reqLen =>
        if n = reqLen then finishRequest debug ipString c buf reqLen
        else if n < reqLen then
          match slice buf n reqLen with
          | none => (c, Exec.panicked)
          | some dst =>
            match readFull c dst.length with
            | (c, Except.error e) => (c, Exec.returned ⟨[], [], some e⟩)
            | (c, Except.ok data) => finishRequest debug ipString c (copyAt buf n data) reqLen
        else (c, Exec.returned ⟨[], [], some Error.errReqExtraData⟩)

end

/-! ## `handleConnection` (main.go lines 174-230) -/

/-- The return statement (or process exit, or panic) that ends
`handleConnection`. -/
inductive Path
  | handshakeFailed
  | requestFailed
  | confirmFailed
  | exited
  | dialFailed
  | relayDone
  | panicked
  deriving DecidableEq

/-- What the surroundings decide during one session. -/
structure Env where
  /-- the package variable `debug` -/
  debug : Bool
  /-- Go `net.IP.String` -/
  ipString : List Byte → List Byte
  /-- size of the initial read of `handShake` -/
  n₁ : Nat
  /-- size of the initial read of `getRequest` -/
  n₂ : Nat
  /-- whether `ss.NewCipher` returns no error -/
  cipherOk : Bool
  /-- whether `ss.DialWithRawAddr` returns no error -/
  dialOk : Bool
  /-- the copy client -> upstream (the goroutine) ends before the copy
  upstream -> client -/
  clientFirst : Bool

/-- Line 201: the connection-established message. -/
def successFrame : List Byte := [0x05, 0x00, 0x00, 0x01, 0x00, 0x00, 0x00, 0x00, 0x08, 0x43]

/-- Modelled from the spec: `ss.PipeThenClose(src, dst)`, the Relay of section
4.5, which lives in the shadowsocks library and not in this repository: copy
from `src` to `dst` until EOF or error, then close `dst`.  Only the close is
recorded in the trace; `closeDst` is the close event of `dst`. -/
def pipeThenClose (closeDst : Event) (c : Conn) : Conn :=
  logEv c closeDst

/-- Lines 226-227: `go ss.PipeThenClose(conn, remote)` next to
`ss.PipeThenClose(remote, conn)`.  Whichever copy ends first closes its
destination, which makes the other copy fail on its next read and close the
other socket. -/
def relay (clientFirst : Bool) (c : Conn) : Conn :=
  if clientFirst then
    pipeThenClose Event.closeClient (pipeThenClose Event.closeRemote c)
  else
    pipeThenClose Event.closeRemote (pipeThenClose Event.closeClient c)

/-- The deferred functions of lines 179-183 and 220-224, run last-in
first-out when `handleConnection` returns or panics: the upstream closer (when
it was registered), then the client closer, each guarded by `closed`. -/
def runDeferred (closed remoteRegistered : Bool) (c : Conn) : Conn :=
  let c := if remoteRegistered && !closed then logEv c Event.closeRemote else c
  if !closed then logEv c Event.closeClient else c

/-- Function `handleConnection(conn, serverId)`.  Its second result names the
statement at which the function ended; `serverId` only selects the password
and the server handed to the cipher and the dial, whose outcomes are in `env`.
Line 209 is `os.Exit(100)`: the process ends and no deferred function runs. -/
def handleConnection (env : Env) (c : Conn) : Conn × Path :=
  let closed := false
  match handShake c env.n₁ with
  | (c, Exec.panicked) => (runDeferred closed false c, Path.panicked)
  | (c, Exec.returned (some _)) => (runDeferred closed false c, Path.handshakeFailed)
  | (c, Exec.returned none) =>
    match getRequest env.debug env.ipString c env.n₂ with
    | (c, Exec.panicked) => (runDeferred closed false c, Path.panicked)
    | (c, Exec.returned ⟨rawaddr, _, err⟩) =>
      match err with
      | some _ => (runDeferred closed false c, Path.requestFailed)
      | none =>
        match connWrite c successFrame with
        | (c, some _) => (runDeferred closed false c, Path.confirmFailed)
        | (c, none) =>
          if !env.cipherOk then (c, Path.exited)
          else
            let c := logEv c (Event.dial rawaddr env.dialOk)
            if !env.dialOk then (runDeferred closed false c, Path.dialFailed)
            else
              let c := relay env.clientFirst c
              let closed := true
              (runDeferred closed true c, Path.relayDone)

/-! ## Vocabulary of the specification -/

/-- A CONNECT request frame `[5, 1, rsv, ATYP, address, port]`. -/
def frame (rsv atyp : Byte) (addr : List Byte) (hi lo : Byte) : List Byte :=
  [5, 1, rsv, atyp] ++ addr ++ [hi, lo]

/-- The address field fits the address type: 4 bytes for IPv4, 16 for IPv6, a
length byte `L` followed by `L` bytes for a domain name. -/
def WellFormedAddr (atyp : Byte) (addr : List Byte) : Prop :=
  (atyp = 1 ∧ addr.length = 4) ∨ (atyp = 4 ∧ addr.length = 16) ∨
    (atyp = 3 ∧ addr.length = (addr.getD 0 0).val + 1)

instance (atyp : Byte) (addr : List Byte) : Decidable (WellFormedAddr atyp addr) := by
  unfold WellFormedAddr; infer_instance

/-- The length `getRequest` expects for the frame `F`, from its address-type
byte and, for a domain name, its length byte, equals the length of `F`. -/
def FrameLen (F : List Byte) : Prop :=
  (F.getD 3 0 = 1 ∧ F.length = 10) ∨ (F.getD 3 0 = 4 ∧ F.length = 22) ∨
    (F.getD 3 0 = 3 ∧ F.length = (F.getD 4 0).val + 7)

instance (F : List Byte) : Decidable (FrameLen F) := by
  unfold FrameLen; infer_instance

/-- The upstream connection was opened: a dial succeeded. -/
def opened (log : List Event) : Bool :=
  log.any (fun e => match e with
    | Event.dial _ true => true
    | _ => false)

/-! ## Lemmas and theorems -/

set_option maxRecDepth 100000

/-! ## Lemmas on the primitives -/

theorem readAtLeast_exact (c : Conn) (buf : List Byte) (min n : Nat)
    (h1 : min ≤ n) (h2 : n ≤ buf.length) (h3 : n ≤ c.incoming.length) :
    readAtLeast c buf min n =
      ({ c with incoming := c.incoming.drop n },
        Except.ok (n, copyAt buf 0 (c.incoming.take n))) := by
  unfold readAtLeast
  have e : Nat.max min (Nat.min n (Nat.min buf.length c.incoming.length)) = n := by
    show max min (Nat.min n (Nat.min buf.length c.incoming.length)) = n
    have : Nat.min n (Nat.min buf.length c.incoming.length) = n := by
      show Min.min n (Min.min buf.length c.incoming.length) = n
      omega
    rw [this]; omega
  rw [if_neg (by omega), if_neg (by omega)]
  simp only [e]

theorem copyAt_zero_getD (buf data : List Byte) (i : Nat) (h : i < data.length) :
    (copyAt buf 0 data).getD i 0 = data.getD i 0 := by
  unfold copyAt
  simp [List.getD_eq_getElem?_getD, List.getElem?_append_left h]

theorem take_getD (l : List Byte) (n i : Nat) (h : i < n) :
    (l.take n).getD i 0 = l.getD i 0 := by
  simp [List.getD_eq_getElem?_getD, List.getElem?_take, h]

/-- After an initial read of `n` bytes, the buffer shows the first `n` bytes
of the stream. -/
theorem initial_getD (buf inc : List Byte) (n i : Nat) (h : i < n) (hn : n ≤ inc.length) :
    (copyAt buf 0 (inc.take n)).getD i 0 = inc.getD i 0 := by
  rw [copyAt_zero_getD _ _ _ (by simp; omega), take_getD _ _ _ h]

/-- C5. A request whose initial read (`n >= 5` bytes) has version byte 5 and a
command byte other than 1 makes `getRequest` return `errCmd` with an empty
`rawaddr` and an empty `host`, whatever the address type and the later bytes
are, in either mode; the connection has lost exactly the `n` bytes of the
initial read and nothing was written. -/
theorem getRequest_errCmd (debug : Bool) (ipString : List Byte → List Byte) (c : Conn)
    (n : Nat) (h5 : 5 ≤ n) (h263 : n ≤ 263) (hn : n ≤ c.incoming.length)
    (hver : c.incoming.getD 0 0 = 5) (hcmd : c.incoming.getD 1 0 ≠ 1) :
    getRequest debug ipString c n =
      ({ c with incoming := c.incoming.drop n },
        Exec.returned ⟨[], [], some Error.errCmd⟩) := by
  have hlen : (List.replicate 263 (0 : Byte)).length = 263 := List.length_replicate _ _
  unfold getRequest
  dsimp only
  generalize List.replicate 263 (0 : Byte) = buf at hlen ⊢
  rw [readAtLeast_exact c buf _ n (by simp only [getRequest.idDmLen]; omega) (by omega) hn]
  have e0 := initial_getD buf c.incoming n 0 (by omega) hn
  have e1 := initial_getD buf c.incoming n 1 (by omega) hn
  simp only [getRequest.idVer, getRequest.idCmd, socksVer5, socksCmdConnect, e0, e1]
  rw [if_neg (not_not.mpr hver), if_pos hcmd]

/-- C5, applied to a BIND request (CMD=2) with the unsupported address type 9,
read in a first chunk of 6 bytes. -/
theorem getRequest_errCmd_witness :
    5 ≤ 6 ∧ 6 ≤ 263 ∧ 6 ≤ (⟨[5, 2, 0, 9, 1, 2, 3, 4], 1, []⟩ : Conn).incoming.length ∧
      getRequest true (fun _ => []) ⟨[5, 2, 0, 9, 1, 2, 3, 4], 1, []⟩ 6 =
        (⟨[3, 4], 1, []⟩, Exec.returned ⟨[], [], some Error.errCmd⟩) :=
  ⟨by decide, by decide, by decide,
    getRequest_errCmd true (fun _ => []) ⟨[5, 2, 0, 9, 1, 2, 3, 4], 1, []⟩ 6 (by decide)
      (by decide) (by decide) (by decide) (by decide)⟩

/-- C6. A request whose initial read has version byte 5, command byte 1 and an
address-type byte other than 1, 3 and 4 makes `getRequest` return
`errAddrType` with an empty `rawaddr`; the connection has lost exactly the `n`
bytes of the initial read and nothing was written. -/
theorem getRequest_errAddrType (debug : Bool) (ipString : List Byte → List Byte) (c : Conn)
    (n : Nat) (h5 : 5 ≤ n) (h263 : n ≤ 263) (hn : n ≤ c.incoming.length)
    (hver : c.incoming.getD 0 0 = 5) (hcmd : c.incoming.getD 1 0 = 1)
    (h1 : c.incoming.getD 3 0 ≠ 1) (h3 : c.incoming.getD 3 0 ≠ 3)
    (h4 : c.incoming.getD 3 0 ≠ 4) :
    getRequest debug ipString c n =
      ({ c with incoming := c.incoming.drop n },
        Exec.returned ⟨[], [], some Error.errAddrType⟩) := by
  have hlen : (List.replicate 263 (0 : Byte)).length = 263 := List.length_replicate _ _
  unfold getRequest
  dsimp only
  generalize List.replicate 263 (0 : Byte) = buf at hlen ⊢
  rw [readAtLeast_exact c buf _ n (by simp only [getRequest.idDmLen]; omega) (by omega) hn]
  have e0 := initial_getD buf c.incoming n 0 (by omega) hn
  have e1 := initial_getD buf c.incoming n 1 (by omega) hn
  have e3 := initial_getD buf c.incoming n 3 (by omega) hn
  simp only [getRequest.idVer, getRequest.idCmd, getRequest.idType, getRequest.typeIPv4,
    getRequest.typeIPv6, getRequest.typeDm, socksVer5, socksCmdConnect, e0, e1, e3]
  rw [if_neg (not_not.mpr hver), if_neg (not_not.mpr hcmd), if_neg h1, if_neg h4, if_neg h3]

/-- C6, applied to a CONNECT request with address type 2, read in a first chunk
of 6 bytes. -/
theorem getRequest_errAddrType_witness :
    5 ≤ 6 ∧ 6 ≤ 263 ∧ 6 ≤ (⟨[5, 1, 0, 2, 1, 2, 3, 4], 1, []⟩ : Conn).incoming.length ∧
      getRequest false (fun _ => []) ⟨[5, 1, 0, 2, 1, 2, 3, 4], 1, []⟩ 6 =
        (⟨[3, 4], 1, []⟩, Exec.returned ⟨[], [], some Error.errAddrType⟩) :=
  ⟨by decide, by decide, by decide,
    getRequest_errAddrType false (fun _ => []) ⟨[5, 1, 0, 2, 1, 2, 3, 4], 1, []⟩ 6 (by decide)
      (by decide) (by decide) (by decide) (by decide) (by decide) (by decide) (by decide)⟩

theorem copyAt_length (buf data : List Byte) (off : Nat) (h : off + data.length ≤ buf.length) :
    (copyAt buf off data).length = buf.length := by
  unfold copyAt
  simp only [List.length_append, List.length_take, List.length_drop]
  omega

theorem slice_some (buf : List Byte) (lo hi : Nat) (h1 : lo ≤ hi) (h2 : hi ≤ buf.length) :
    slice buf lo hi = some ((buf.take hi).drop lo) := by
  unfold slice
  rw [if_pos ⟨h1, h2⟩]

theorem readFull_exact (c : Conn) (k : Nat) (h : k ≤ c.incoming.length) :
    readFull c k =
      ({ c with incoming := c.incoming.drop k }, Except.ok (c.incoming.take k)) := by
  unfold readFull
  rw [if_neg (by omega)]

/-- C2. A greeting `[5, N, m_1 .. m_N]` followed by nothing that the first read
could reach (the first read returns `n` bytes, `2 <= n <= 2+N`) makes
`handShake` return no error, write exactly `[5, 0]` and leave on the connection
exactly what came after the `2+N` greeting bytes, whatever the method bytes
are, provided the connection accepts the write. -/
theorem handShake_ok (N : Byte) (methods rest : List Byte) (w : Nat) (log : List Event)
    (n : Nat) (hm : methods.length = N.val) (h2 : 2 ≤ n) (hn : n ≤ N.val + 2) :
    handShake ⟨[5, N] ++ methods ++ rest, w + 1, log⟩ n =
      (⟨rest, w, log ++ [Event.write [5, 0]]⟩, Exec.returned none) := by
  have hN : N.val < 256 := N.isLt
  have hlen : (List.replicate 258 (0 : Byte)).length = 258 := List.length_replicate _ _
  have hinc : ([5, N] ++ methods ++ rest).length = N.val + 2 + rest.length := by
    simp only [List.length_append, List.length_cons, List.length_nil, hm]; omega
  unfold handShake
  dsimp only
  generalize List.replicate 258 (0 : Byte) = buf at hlen ⊢
  rw [readAtLeast_exact _ buf _ n (by simp only [handShake.idNmethod]; omega) (by omega)
    (by simp only [hinc]; omega)]
  have e0 := initial_getD buf ([5, N] ++ methods ++ rest) n 0 (by omega) (by omega)
  have e1 := initial_getD buf ([5, N] ++ methods ++ rest) n 1 (by omega) (by omega)
  have v0 : ([5, N] ++ methods ++ rest).getD 0 0 = 5 := rfl
  have v1 : ([5, N] ++ methods ++ rest).getD 1 0 = N := rfl
  have hdrop : ([5, N] ++ methods ++ rest).drop (N.val + 2) = rest := by
    have : ([5, N] ++ methods).length = N.val + 2 := by
      simp only [List.length_append, List.length_cons, List.length_nil, hm]; omega
    rw [← this, List.drop_left]
  simp only [handShake.idVer, handShake.idNmethod, socksVer5, e0, e1, v0, v1]
  rw [if_neg (not_not.mpr rfl)]
  by_cases hx : n = N.val + 2
  · rw [if_pos hx]
    subst hx
    simp only [sendConfirmation, connWrite, hdrop, socksVer5]
  · rw [if_neg hx, if_pos (by omega)]
    have hb1 : (copyAt buf 0 (List.take n ([5, N] ++ methods ++ rest))).length = 258 := by
      rw [copyAt_length _ _ _ (by simp only [List.length_take, hinc]; omega), hlen]
    rw [slice_some _ _ _ (by omega) (by omega)]
    dsimp only
    have hk : ((List.take (N.val + 2) (copyAt buf 0 (List.take n ([5, N] ++ methods ++ rest)))).drop
        n).length = N.val + 2 - n := by
      simp only [List.length_drop, List.length_take, hb1]; omega
    rw [hk, readFull_exact _ _ (by simp only [List.length_drop, hinc]; omega)]
    dsimp only
    have hd2 : List.drop (N.val + 2 - n) (List.drop n ([5, N] ++ methods ++ rest)) = rest := by
      rw [List.drop_drop]
      have : n + (N.val + 2 - n) = N.val + 2 := by omega
      rw [this, hdrop]
    simp only [sendConfirmation, connWrite, hd2, socksVer5]

/-- C2, applied to the greeting `[5, 2, 0, 1]` read in a first chunk of 3
bytes. -/
theorem handShake_ok_witness :
    ([0, 1] : List Byte).length = (2 : Byte).val ∧ 2 ≤ 3 ∧ 3 ≤ (2 : Byte).val + 2 ∧
      handShake ⟨[5, 2] ++ [0, 1] ++ [], 0 + 1, []⟩ 3 =
        (⟨[], 0, [] ++ [Event.write [5, 0]]⟩, Exec.returned none) :=
  ⟨by decide, by decide, by decide,
    handShake_ok 2 [0, 1] [] 0 [] 3 (by decide) (by decide) (by decide)⟩

/-- C4, as amended. When the first read already returned more than `2+N` bytes
of a version-5 greeting, `handShake` returns `errAuthExtraData` and writes
nothing. -/
theorem handShake_extraData (c : Conn) (n : Nat) (h258 : n ≤ 258)
    (hn : n ≤ c.incoming.length) (hver : c.incoming.getD 0 0 = 5)
    (hext : (c.incoming.getD 1 0).val + 2 < n) :
    handShake c n =
      ({ c with incoming := c.incoming.drop n },
        Exec.returned (some Error.errAuthExtraData)) := by
  have hlen : (List.replicate 258 (0 : Byte)).length = 258 := List.length_replicate _ _
  unfold handShake
  dsimp only
  generalize List.replicate 258 (0 : Byte) = buf at hlen ⊢
  rw [readAtLeast_exact _ buf _ n (by simp only [handShake.idNmethod]; omega) (by omega) hn]
  have e0 := initial_getD buf c.incoming n 0 (by omega) hn
  have e1 := initial_getD buf c.incoming n 1 (by omega) hn
  simp only [handShake.idVer, handShake.idNmethod, socksVer5, e0, e1]
  rw [if_neg (not_not.mpr hver), if_neg (by omega), if_neg (by omega)]

/-- C4, as amended, applied to `[5, 1, 0, 99]` read in one chunk of 4 bytes. -/
theorem handShake_extraData_witness :
    4 ≤ 258 ∧ 4 ≤ (⟨[5, 1, 0, 99], 1, []⟩ : Conn).incoming.length ∧
      handShake ⟨[5, 1, 0, 99], 1, []⟩ 4 =
        (⟨[], 1, []⟩, Exec.returned (some Error.errAuthExtraData)) :=
  ⟨by decide, by decide,
    handShake_extraData ⟨[5, 1, 0, 99], 1, []⟩ 4 (by decide) (by decide) (by decide) (by decide)⟩

/-- C4 as stated fails. The client supplies `[5, 1, 0, 99]`, one byte more than
the `2+N = 3` bytes of the greeting, and the first read returns 3 bytes:
`handShake` returns no error and writes the reply `[5, 0]`; the extra byte stays
on the connection. -/
theorem greeting_extra_byte_unread :
    handShake ⟨[5, 1, 0, 99], 1, []⟩ 3 =
        (⟨[99], 0, [Event.write [5, 0]]⟩, Exec.returned none) ∧
      (handShake ⟨[5, 1, 0, 99], 1, []⟩ 3).2 ≠
        Exec.returned (some Error.errAuthExtraData) := by
  decide

theorem copyAt_zero (buf data : List Byte) :
    copyAt buf 0 data = data ++ buf.drop data.length := by
  unfold copyAt
  simp

/-- The initial read followed by the completing read leaves the first `m`
bytes of the stream at the front of the buffer. -/
theorem copyAt_copyAt (buf inc : List Byte) (n m : Nat) (hnm : n ≤ m)
    (hm : m ≤ inc.length) :
    copyAt (copyAt buf 0 (inc.take n)) n ((inc.drop n).take (m - n)) =
      inc.take m ++ buf.drop m := by
  have hl : (inc.take n).length = n := by rw [List.length_take]; omega
  have hd : ((inc.drop n).take (m - n)).length = m - n := by
    rw [List.length_take, List.length_drop]; omega
  rw [copyAt_zero, hl]
  unfold copyAt
  rw [hd]
  have h1 : List.take n (List.take n inc ++ List.drop n buf) = List.take n inc := by
    rw [List.take_append_of_le_length (by omega), List.take_take]; simp
  have h2 : List.drop (n + (m - n)) (List.take n inc ++ List.drop n buf) = List.drop m buf := by
    rw [List.drop_append_eq_append_drop, hl]
    rw [List.drop_eq_nil_of_le (by omega), List.drop_drop]
    have e1 : n + (m - n) = m := by omega
    have e2 : n + (m - n) - n = m - n := by omega
    simp only [e1, e2, List.nil_append]
  rw [h1, h2]
  congr 1
  have : m = n + (m - n) := by omega
  conv_rhs => rw [this, List.take_add]

theorem append_getD (F rest : List Byte) (i : Nat) (h : i < F.length) :
    (F ++ rest).getD i 0 = F.getD i 0 := by
  simp [List.getD_eq_getElem?_getD, List.getElem?_append_left h]

/-- On a frame of the expected length, whatever the size `n` of the initial
read, `getRequest` reaches line 156 with the frame at the front of the buffer
and exactly the frame consumed. -/
theorem getRequest_frame (debug : Bool) (ipString : List Byte → List Byte)
    (F rest : List Byte) (w : Nat) (log : List Event) (n : Nat)
    (hv : F.getD 0 0 = 5) (hc : F.getD 1 0 = 1) (hF : FrameLen F)
    (h5 : 5 ≤ n) (hn : n ≤ F.length) :
    getRequest debug ipString ⟨F ++ rest, w, log⟩ n =
      finishRequest debug ipString ⟨rest, w, log⟩
        (F ++ (List.replicate 263 (0 : Byte)).drop F.length) F.length := by
  have hlen : (List.replicate 263 (0 : Byte)).length = 263 := List.length_replicate _ _
  have hb4 : (F.getD 4 0).val < 256 := (F.getD 4 0).isLt
  have hFl : 7 ≤ F.length ∧ F.length ≤ 262 := by
    rcases hF with ⟨_, h⟩ | ⟨_, h⟩ | ⟨_, h⟩ <;> omega
  have hinc : (F ++ rest).length = F.length + rest.length := List.length_append _ _
  unfold getRequest
  dsimp only
  generalize List.replicate 263 (0 : Byte) = buf at hlen ⊢
  rw [readAtLeast_exact _ buf _ n (by simp only [getRequest.idDmLen]; omega) (by omega)
    (by simp only [hinc]; omega)]
  have e0 := initial_getD buf (F ++ rest) n 0 (by omega) (by omega)
  have e1 := initial_getD buf (F ++ rest) n 1 (by omega) (by omega)
  have e3 := initial_getD buf (F ++ rest) n 3 (by omega) (by omega)
  have e4 := initial_getD buf (F ++ rest) n 4 (by omega) (by omega)
  rw [append_getD _ _ _ (by omega)] at e0 e1 e3 e4
  simp only [getRequest.idVer, getRequest.idCmd, getRequest.idType, getRequest.idDmLen,
    getRequest.typeIPv4, getRequest.typeIPv6, getRequest.typeDm, getRequest.lenIPv4,
    getRequest.lenIPv6, getRequest.lenDmBase, getRequest.IPv4len, getRequest.IPv6len,
    socksVer5, socksCmdConnect, e0, e1, e3, e4]
  rw [if_neg (not_not.mpr hv), if_neg (not_not.mpr hc)]
  have hreq : (if F.getD 3 0 = 1 then some (3 + 1 + 4 + 2)
      else if F.getD 3 0 = 4 then some (3 + 1 + 16 + 2)
      else if F.getD 3 0 = 3 then some ((F.getD 4 0).val + (3 + 1 + 1 + 2)) else none) =
      some F.length := by
    rcases hF with ⟨ht, h⟩ | ⟨ht, h⟩ | ⟨ht, h⟩
    · rw [if_pos ht, h]
    · rw [if_neg (by rw [ht]; decide), if_pos ht, h]
    · rw [if_neg (by rw [ht]; decide), if_neg (by rw [ht]; decide), if_pos ht, h]
  rw [hreq]
  dsimp only
  have htake : List.take F.length (F ++ rest) = F := List.take_left _ _
  by_cases hx : n = F.length
  · rw [if_pos hx]
    subst hx
    rw [htake, List.drop_left, copyAt_zero]
  · rw [if_neg hx, if_pos (by omega)]
    have hb1 : (copyAt buf 0 (List.take n (F ++ rest))).length = 263 := by
      rw [copyAt_length _ _ _ (by simp only [List.length_take, hinc]; omega), hlen]
    rw [slice_some _ _ _ (by omega) (by omega)]
    dsimp only
    have hk : ((List.take F.length (copyAt buf 0 (List.take n (F ++ rest)))).drop n).length =
        F.length - n := by
      simp only [List.length_drop, List.length_take, hb1]; omega
    rw [hk, readFull_exact _ _ (by simp only [List.length_drop, hinc]; omega)]
    dsimp only
    rw [copyAt_copyAt buf (F ++ rest) n F.length (by omega) (by omega), htake, List.drop_drop]
    have : n + (F.length - n) = F.length := by omega
    rw [this, List.drop_left]

theorem frame_length (rsv atyp : Byte) (addr : List Byte) (hi lo : Byte) :
    (frame rsv atyp addr hi lo).length = addr.length + 6 := by
  simp only [frame, List.length_append, List.length_cons, List.length_nil]
  omega

theorem frame_getD4 (rsv atyp : Byte) (addr : List Byte) (hi lo : Byte) (h : 0 < addr.length) :
    (frame rsv atyp addr hi lo).getD 4 0 = addr.getD 0 0 := by
  cases addr with
  | nil => simp at h
  | cons a t => rfl

theorem frame_frameLen (rsv atyp : Byte) (addr : List Byte) (hi lo : Byte)
    (hwf : WellFormedAddr atyp addr) : FrameLen (frame rsv atyp addr hi lo) := by
  have h3 : (frame rsv atyp addr hi lo).getD 3 0 = atyp := rfl
  unfold FrameLen
  rw [h3, frame_length]
  rcases hwf with ⟨ht, h⟩ | ⟨ht, h⟩ | ⟨ht, h⟩
  · exact Or.inl ⟨ht, by omega⟩
  · exact Or.inr (Or.inl ⟨ht, by omega⟩)
  · refine Or.inr (Or.inr ⟨ht, ?_⟩)
    rw [frame_getD4 _ _ _ _ _ (by omega)]
    omega

/-- Line 156 on a buffer that starts with the frame `F`. -/
theorem slice_rawaddr (F tail : List Byte) (h3 : 3 ≤ F.length) :
    slice (F ++ tail) getRequest.idType F.length = some (F.drop 3) := by
  show slice (F ++ tail) 3 F.length = some (F.drop 3)
  rw [slice_some _ _ _ h3 (by simp), List.take_left]

/-- Line 167 on a buffer that starts with a frame. -/
theorem slice_port (rsv atyp : Byte) (addr : List Byte) (hi lo : Byte) (tail : List Byte) :
    slice (frame rsv atyp addr hi lo ++ tail) ((frame rsv atyp addr hi lo).length - 2)
      (frame rsv atyp addr hi lo).length = some [hi, lo] := by
  rw [slice_some _ _ _ (by omega) (by simp), List.take_left]
  have : frame rsv atyp addr hi lo = ([5, 1, rsv, atyp] ++ addr) ++ [hi, lo] := rfl
  have hl : (frame rsv atyp addr hi lo).length - 2 = ([5, 1, rsv, atyp] ++ addr).length := by
    rw [frame_length]; simp only [List.length_append, List.length_cons, List.length_nil]; omega
  rw [hl, this, List.drop_left]

/-- Line 165 on a buffer that starts with a domain-name frame whose length
byte is at most 250: the slice is the name. -/
theorem slice_domain (rsv : Byte) (L : Byte) (s : List Byte) (hi lo : Byte) (tail : List Byte)
    (hs : s.length = L.val) (hL : L.val ≤ 250) :
    slice (frame rsv 3 (L :: s) hi lo ++ tail) getRequest.idDm0
      ((Fin.ofNat getRequest.idDm0 : Byte) +
        (frame rsv 3 (L :: s) hi lo ++ tail).getD getRequest.idDmLen 0).val = some s := by
  have h4 : (frame rsv 3 (L :: s) hi lo ++ tail).getD getRequest.idDmLen 0 = L := rfl
  have hv : ((Fin.ofNat getRequest.idDm0 : Byte) + L).val = 5 + L.val := by
    rw [Fin.val_add]
    have : (Fin.ofNat getRequest.idDm0 : Byte).val = 5 := rfl
    rw [this]
    omega
  rw [h4, hv]
  have hfl := frame_length rsv 3 (L :: s) hi lo
  simp only [List.length_cons] at hfl
  rw [slice_some _ _ _ (by simp only [getRequest.idDm0]; omega)
    (by simp only [List.length_append]; omega)]
  have e : frame rsv 3 (L :: s) hi lo ++ tail = ([5, 1, rsv, 3, L] ++ s) ++ ([hi, lo] ++ tail) := by
    simp [frame]
  have hl : 5 + L.val = ([5, 1, rsv, 3, L] ++ s).length := by
    rw [List.length_append, hs]
    rfl
  rw [e, hl, List.take_left]
  rfl

/-- In debug mode the rendering of lines 158-169 does not panic on a
well-formed frame, unless the frame is a domain name of more than 250 bytes. -/
theorem debugHost_isSome (ipString : List Byte → List Byte) (rsv atyp : Byte)
    (addr : List Byte) (hi lo : Byte) (tail : List Byte) (hwf : WellFormedAddr atyp addr)
    (h263 : (frame rsv atyp addr hi lo ++ tail).length = 263)
    (hdm : atyp = 3 → addr.length ≤ 251) :
    ∃ host, debugHost ipString (frame rsv atyp addr hi lo ++ tail)
      (frame rsv atyp addr hi lo).length = some host := by
  have h3 : (frame rsv atyp addr hi lo ++ tail).getD getRequest.idType 0 = atyp := rfl
  unfold debugHost
  dsimp only
  rw [h3, slice_port]
  rcases hwf with ⟨ht, h⟩ | ⟨ht, h⟩ | ⟨ht, h⟩
  · subst ht
    rw [if_pos (show (1 : Byte) = getRequest.typeIPv4 from rfl),
      slice_some _ _ _ (by decide) (by rw [h263]; decide)]
    exact ⟨_, rfl⟩
  · subst ht
    rw [if_neg (show ¬ (4 : Byte) = getRequest.typeIPv4 by decide),
      if_pos (show (4 : Byte) = getRequest.typeIPv6 from rfl),
      slice_some _ _ _ (by decide) (by rw [h263]; decide)]
    exact ⟨_, rfl⟩
  · subst ht
    rw [if_neg (show ¬ (3 : Byte) = getRequest.typeIPv4 by decide),
      if_neg (show ¬ (3 : Byte) = getRequest.typeIPv6 by decide),
      if_pos (show (3 : Byte) = getRequest.typeDm from rfl)]
    cases addr with
    | nil => simp at h
    | cons L s =>
      have hs : s.length = L.val := by
        simp only [List.length_cons] at h
        have : (L :: s).getD 0 0 = L := rfl
        rw [this] at h
        omega
      have hL : L.val ≤ 250 := by
        have := hdm rfl
        simp only [List.length_cons] at this
        omega
      rw [slice_domain rsv L s hi lo tail hs hL]
      exact ⟨_, rfl⟩

/-- On every well-formed CONNECT frame, in either mode, `getRequest` returns no
error and `rawaddr` is the frame without its first 3 bytes, the same for every
size of the initial read; the one exception is debug mode on a domain name
longer than 250 bytes. -/
theorem getRequest_accepts_wellFormed (debug : Bool) (ipString : List Byte → List Byte)
    (rsv atyp : Byte) (addr : List Byte) (hi lo : Byte) (rest : List Byte) (w : Nat)
    (log : List Event) (hwf : WellFormedAddr atyp addr)
    (hdbg : debug = true → atyp = 3 → addr.length ≤ 251) :
    ∃ host, ∀ n, 5 ≤ n → n ≤ (frame rsv atyp addr hi lo).length →
      getRequest debug ipString ⟨frame rsv atyp addr hi lo ++ rest, w, log⟩ n =
        (⟨rest, w, log⟩,
          Exec.returned ⟨(frame rsv atyp addr hi lo).drop 3, host, none⟩) := by
  have hF := frame_frameLen rsv atyp addr hi lo hwf
  have hfl := frame_length rsv atyp addr hi lo
  have hle : (frame rsv atyp addr hi lo).length ≤ 262 := by
    have hb := (addr.getD 0 0).isLt
    rcases hwf with ⟨_, h⟩ | ⟨_, h⟩ | ⟨_, h⟩ <;> omega
  have h263 : (frame rsv atyp addr hi lo ++
      (List.replicate 263 (0 : Byte)).drop (frame rsv atyp addr hi lo).length).length = 263 := by
    rw [List.length_append, List.length_drop, List.length_replicate]; omega
  cases debug with
  | false =>
    refine ⟨[], fun n h5 hn => ?_⟩
    rw [getRequest_frame false ipString (frame rsv atyp addr hi lo) rest w log n rfl rfl hF h5 hn]
    unfold finishRequest
    rw [slice_rawaddr _ _ (by omega)]
    rfl
  | true =>
    obtain ⟨host, hh⟩ := debugHost_isSome ipString rsv atyp addr hi lo _ hwf h263 (hdbg rfl)
    refine ⟨host, fun n h5 hn => ?_⟩
    rw [getRequest_frame true ipString (frame rsv atyp addr hi lo) rest w log n rfl rfl hF h5 hn]
    unfold finishRequest
    rw [slice_rawaddr _ _ (by omega)]
    dsimp only
    rw [hh]
    rfl

/-- With the package variable `debug` unset, on every well-formed CONNECT frame
`F`, followed by anything, and for every size `n` of the initial read with
`5 <= n <= len(F)`, `getRequest` returns no error, `rawaddr` is `F` without its
first 3 bytes, `host` is empty and exactly `F` has been consumed. -/
theorem getRequest_frame_tail (ipString : List Byte → List Byte) (rsv atyp : Byte)
    (addr : List Byte) (hi lo : Byte) (rest : List Byte) (w : Nat) (log : List Event)
    (n : Nat) (hwf : WellFormedAddr atyp addr) (h5 : 5 ≤ n)
    (hn : n ≤ (frame rsv atyp addr hi lo).length) :
    getRequest false ipString ⟨frame rsv atyp addr hi lo ++ rest, w, log⟩ n =
      (⟨rest, w, log⟩,
        Exec.returned ⟨(frame rsv atyp addr hi lo).drop 3, [], none⟩) := by
  have hF := frame_frameLen rsv atyp addr hi lo hwf
  have hfl := frame_length rsv atyp addr hi lo
  rw [getRequest_frame false ipString (frame rsv atyp addr hi lo) rest w log n rfl rfl hF h5 hn]
  unfold finishRequest
  rw [slice_rawaddr _ _ (by omega)]
  rfl

/-- C1 fails on the code. The frame `[5, 1, 0, 3, 255]` followed by 255 name
bytes and the port bytes `[1, 187]` is a well-formed domain-name request of 262
bytes, and 5 is an admissible size of the initial read.  With `debug` set,
`getRequest` reads the whole frame and then panics at line 165 (the upper bound
`5 + 255` is computed in a byte, giving 4, below the lower bound 5): it returns
neither an error value nor a `rawaddr`.  With `debug` unset the same call
returns the frame without its first 3 bytes. -/
theorem wellformed_frame_panics_in_debug :
    WellFormedAddr 3 (255 :: List.replicate 255 97) ∧
      5 ≤ (frame 0 3 (255 :: List.replicate 255 97) 1 187).length ∧
      ((Fin.ofNat getRequest.idDm0 : Byte) + 255).val = 4 ∧
      getRequest true (fun _ => [])
          ⟨frame 0 3 (255 :: List.replicate 255 97) 1 187, 1, []⟩ 5 =
        (⟨[], 1, []⟩, Exec.panicked) ∧
      getRequest false (fun _ => [])
          ⟨frame 0 3 (255 :: List.replicate 255 97) 1 187, 1, []⟩ 5 =
        (⟨[], 1, []⟩,
          Exec.returned ⟨(frame 0 3 (255 :: List.replicate 255 97) 1 187).drop 3, [], none⟩) := by
  decide

theorem readAtLeast_short (c : Conn) (buf : List Byte) (min n₀ : Nat)
    (hb : min ≤ buf.length) (h : c.incoming.length < min) :
    readAtLeast c buf min n₀ = ({ c with incoming := [] }, Except.error Error.errConn) := by
  unfold readAtLeast
  rw [if_neg (by omega), if_pos h]

/-- When enough bytes are available, `readAtLeast` returns a count between
`min` and what the buffer and the stream hold. -/
theorem readAtLeast_clamp (c : Conn) (buf : List Byte) (min n₀ : Nat)
    (hb : min ≤ buf.length) (h : min ≤ c.incoming.length) :
    ∃ n, min ≤ n ∧ n ≤ buf.length ∧ n ≤ c.incoming.length ∧
      readAtLeast c buf min n₀ =
        ({ c with incoming := c.incoming.drop n },
          Except.ok (n, copyAt buf 0 (c.incoming.take n))) := by
  refine ⟨Nat.max min (Nat.min n₀ (Nat.min buf.length c.incoming.length)), ?_, ?_, ?_, ?_⟩
  · exact Nat.le_max_left _ _
  · exact Nat.max_le.mpr ⟨hb, Nat.le_trans (Nat.min_le_right _ _) (Nat.min_le_left _ _)⟩
  · exact Nat.max_le.mpr ⟨h, Nat.le_trans (Nat.min_le_right _ _) (Nat.min_le_right _ _)⟩
  · unfold readAtLeast
    rw [if_neg (by omega), if_neg (by omega)]

/-- Line 156: when `finishRequest` returns, `rawaddr` is `buf[3:reqLen]`. -/
theorem finishRequest_length (debug : Bool) (ipString : List Byte → List Byte) (c c' : Conn)
    (B : List Byte) (m : Nat) (r : Request)
    (h : finishRequest debug ipString c B m = (c', Exec.returned r))
    (h3 : 3 ≤ m) (hm : m ≤ B.length) : r.rawaddr.length = m - 3 := by
  unfold finishRequest at h
  have hs : slice B getRequest.idType m = some ((B.take m).drop 3) := slice_some B 3 m h3 hm
  rw [hs] at h
  dsimp only at h
  have hl : ((B.take m).drop 3).length = m - 3 := by
    rw [List.length_drop, List.length_take]; omega
  cases debug with
  | false =>
    simp only [Bool.false_eq_true, if_false, Prod.mk.injEq, Exec.returned.injEq] at h
    rw [← h.2]
    exact hl
  | true =>
    simp only [if_true] at h
    cases hd : debugHost ipString B m with
    | none => rw [hd] at h; simp at h
    | some host =>
      rw [hd] at h
      simp only [Prod.mk.injEq, Exec.returned.injEq] at h
      rw [← h.2]
      exact hl

theorem not_accepted {c c' : Conn} {e : Error} {r : Request}
    (h : (c, Exec.returned (⟨[], [], some e⟩ : Request)) = (c', Exec.returned r))
    (herr : r.err = none) : False := by
  simp only [Prod.mk.injEq, Exec.returned.injEq] at h
  rw [← h.2] at herr
  simp at herr

/-- Lines 145-156: once the expected length `reqLen` is known, an accepted
request has a `rawaddr` of `reqLen - 3` bytes. -/
theorem completed_length (debug : Bool) (ipString : List Byte → List Byte) (c c' : Conn)
    (buf : List Byte) (n reqLen : Nat) (r : Request) (hbuf : buf.length = 263)
    (h3 : 3 ≤ reqLen) (hreq : reqLen ≤ 263)
    (h : (if n = reqLen then finishRequest debug ipString c buf reqLen
        else if n < reqLen then
          match slice buf n reqLen with
          | none => (c, Exec.panicked)
          | some dst =>
            match readFull c dst.length with
            | (c, Except.error e) => (c, Exec.returned ⟨[], [], some e⟩)
            | (c, Except.ok data) => finishRequest debug ipString c (copyAt buf n data) reqLen
        else (c, Exec.returned ⟨[], [], some Error.errReqExtraData⟩)) =
      (c', Exec.returned r))
    (herr : r.err = none) : r.rawaddr.length = reqLen - 3 := by
  by_cases hx : n = reqLen
  · rw [if_pos hx] at h
    exact finishRequest_length _ _ _ _ _ _ _ h h3 (by omega)
  · rw [if_neg hx] at h
    by_cases hlt : n < reqLen
    · rw [if_pos hlt, slice_some _ _ _ (by omega) (by omega)] at h
      dsimp only at h
      have hk : ((List.take reqLen buf).drop n).length = reqLen - n := by
        rw [List.length_drop, List.length_take]; omega
      rw [hk] at h
      by_cases hav : c.incoming.length < reqLen - n
      · have : readFull c (reqLen - n) =
            ({ c with incoming := [] }, Except.error Error.errConn) := by
          unfold readFull; rw [if_pos hav]
        rw [this] at h
        exact (not_accepted h herr).elim
      · rw [readFull_exact _ _ (by omega)] at h
        dsimp only at h
        refine finishRequest_length _ _ _ _ _ _ _ h h3 ?_
        rw [copyAt_length _ _ _ (by rw [List.length_take, hbuf]; omega)]
        omega
    · rw [if_neg hlt] at h
      exact (not_accepted h herr).elim

/-- C3, as amended. Whenever `getRequest` accepts a request (returns with no
error), the returned `rawaddr` has length 7 when the address type is IPv4
(ATYP=1) and length 19 when it is IPv6 (ATYP=4). -/
theorem getRequest_rawaddr_length (debug : Bool) (ipString : List Byte → List Byte)
    (c c' : Conn) (n₀ : Nat) (r : Request)
    (h : getRequest debug ipString c n₀ = (c', Exec.returned r)) (herr : r.err = none) :
    (c.incoming.getD 3 0 = 1 → r.rawaddr.length = 7) ∧
      (c.incoming.getD 3 0 = 4 → r.rawaddr.length = 19) := by
  have hlen : (List.replicate 263 (0 : Byte)).length = 263 := List.length_replicate _ _
  unfold getRequest at h
  dsimp only at h
  generalize List.replicate 263 (0 : Byte) = buf at hlen h
  by_cases hshort : c.incoming.length < getRequest.idDmLen + 1
  · rw [readAtLeast_short _ _ _ _ (by rw [hlen]; decide) hshort] at h
    exact (not_accepted h herr).elim
  · obtain ⟨n, h5, hb, hn, hr⟩ := readAtLeast_clamp c buf (getRequest.idDmLen + 1) n₀
      (by rw [hlen]; decide) (by omega)
    rw [hr] at h
    dsimp only at h
    have h5' : 5 ≤ n := h5
    have e0 := initial_getD buf c.incoming n 0 (by omega) hn
    have e1 := initial_getD buf c.incoming n 1 (by omega) hn
    have e3 := initial_getD buf c.incoming n 3 (by omega) hn
    have hb1 : (copyAt buf 0 (List.take n c.incoming)).length = 263 := by
      rw [copyAt_length _ _ _ (by simp only [List.length_take]; omega), hlen]
    simp only [getRequest.idVer, getRequest.idCmd, getRequest.idType, e0, e1, e3] at h
    by_cases hver : c.incoming.getD 0 0 ≠ socksVer5
    · rw [if_pos hver] at h
      exact (not_accepted h herr).elim
    · rw [if_neg hver] at h
      by_cases hcmd : c.incoming.getD 1 0 ≠ socksCmdConnect
      · rw [if_pos hcmd] at h
        exact (not_accepted h herr).elim
      · rw [if_neg hcmd] at h
        constructor
        · intro ht
          rw [ht, if_pos (show (1 : Byte) = getRequest.typeIPv4 from rfl)] at h
          exact completed_length _ _ _ _ _ _ _ _ hb1 (by decide) (by decide) h herr
        · intro ht
          rw [ht, if_neg (show ¬ (4 : Byte) = getRequest.typeIPv4 by decide),
            if_pos (show (4 : Byte) = getRequest.typeIPv6 from rfl)] at h
          exact completed_length _ _ _ _ _ _ _ _ hb1 (by decide) (by decide) h herr

/-- C3, as amended, applied to the IPv4 request for 93.184.216.34:80. -/
theorem getRequest_rawaddr_length_witness :
    getRequest false (fun _ => []) ⟨[5, 1, 0, 1, 93, 184, 216, 34, 0, 80], 1, []⟩ 10 =
        (⟨[], 1, []⟩, Exec.returned ⟨[1, 93, 184, 216, 34, 0, 80], [], none⟩) ∧
      (⟨[1, 93, 184, 216, 34, 0, 80], [], none⟩ : Request).err = none ∧
      (((⟨[5, 1, 0, 1, 93, 184, 216, 34, 0, 80], 1, []⟩ : Conn).incoming.getD 3 0 = 1 →
          (⟨[1, 93, 184, 216, 34, 0, 80], [], none⟩ : Request).rawaddr.length = 7) ∧
        ((⟨[5, 1, 0, 1, 93, 184, 216, 34, 0, 80], 1, []⟩ : Conn).incoming.getD 3 0 = 4 →
          (⟨[1, 93, 184, 216, 34, 0, 80], [], none⟩ : Request).rawaddr.length = 19)) :=
  ⟨by decide, rfl,
    getRequest_rawaddr_length false (fun _ => [])
      ⟨[5, 1, 0, 1, 93, 184, 216, 34, 0, 80], 1, []⟩ ⟨[], 1, []⟩ 10
      ⟨[1, 93, 184, 216, 34, 0, 80], [], none⟩ (by decide) rfl⟩

/-- C3 as stated fails. The well-formed IPv4 request for 93.184.216.34:80 is
accepted and its `rawaddr` has 7 bytes, not 9; the well-formed IPv6 request for
[::1]:80 is accepted and its `rawaddr` has 19 bytes, not 21. -/
theorem ipv4_rawaddr_is_7_not_9 :
    (getRequest false (fun _ => []) ⟨[5, 1, 0, 1, 93, 184, 216, 34, 0, 80], 1, []⟩ 10 =
        (⟨[], 1, []⟩, Exec.returned ⟨[1, 93, 184, 216, 34, 0, 80], [], none⟩) ∧
      ([1, 93, 184, 216, 34, 0, 80] : List Byte).length ≠ 9) ∧
    (getRequest false (fun _ => [])
        ⟨[5, 1, 0, 4, 0, 0, 0, 0, 0, 0, 0, 0, 0, 0, 0, 0, 0, 0, 0, 1, 0, 80], 1, []⟩ 22 =
        (⟨[], 1, []⟩,
          Exec.returned ⟨[4, 0, 0, 0, 0, 0, 0, 0, 0, 0, 0, 0, 0, 0, 0, 0, 1, 0, 80], [], none⟩) ∧
      ([4, 0, 0, 0, 0, 0, 0, 0, 0, 0, 0, 0, 0, 0, 0, 0, 1, 0, 80] : List Byte).length ≠ 21) := by
  decide

/-- C7, as amended. In debug mode, on a well-formed domain-name request with
length byte `L <= 250`, name bytes `s` and port bytes `[hi, lo]`, `getRequest`
returns `rawaddr = [3, L] ++ s ++ [hi, lo]` and `host` equal to `s` (put between
square brackets when `s` contains a colon, as `net.JoinHostPort` does) followed
by ':' and the decimal rendering of `256*hi+lo`, for every size `n` of the
initial read. -/
theorem getRequest_host_domain (ipString : List Byte → List Byte) (rsv L : Byte)
    (s : List Byte) (hi lo : Byte) (rest : List Byte) (w : Nat) (log : List Event) (n : Nat)
    (hs : s.length = L.val) (hL : L.val ≤ 250) (h5 : 5 ≤ n)
    (hn : n ≤ (frame rsv 3 (L :: s) hi lo).length) :
    getRequest true ipString ⟨frame rsv 3 (L :: s) hi lo ++ rest, w, log⟩ n =
      (⟨rest, w, log⟩,
        Exec.returned
          ⟨[3, L] ++ s ++ [hi, lo],
            (if (58 : Byte) ∈ s then bytesOf "[" ++ s ++ bytesOf "]" else s) ++ bytesOf ":" ++
              itoa (256 * hi.val + lo.val),
            none⟩) := by
  have hwf : WellFormedAddr 3 (L :: s) := by
    refine Or.inr (Or.inr ⟨rfl, ?_⟩)
    rw [List.length_cons, hs]
    rfl
  have hF := frame_frameLen rsv 3 (L :: s) hi lo hwf
  have hfl := frame_length rsv 3 (L :: s) hi lo
  rw [getRequest_frame true ipString (frame rsv 3 (L :: s) hi lo) rest w log n rfl rfl hF h5 hn]
  unfold finishRequest
  rw [slice_rawaddr _ _ (by omega)]
  dsimp only
  have hd : debugHost ipString
      (frame rsv 3 (L :: s) hi lo ++
        (List.replicate 263 (0 : Byte)).drop (frame rsv 3 (L :: s) hi lo).length)
      (frame rsv 3 (L :: s) hi lo).length =
      some (joinHostPort s (itoa (bigEndianUint16 [hi, lo]))) := by
    unfold debugHost
    dsimp only
    have h3 : (frame rsv 3 (L :: s) hi lo ++
        (List.replicate 263 (0 : Byte)).drop (frame rsv 3 (L :: s) hi lo).length).getD
          getRequest.idType 0 = 3 := rfl
    rw [h3, slice_port, if_neg (show ¬ (3 : Byte) = getRequest.typeIPv4 by decide),
      if_neg (show ¬ (3 : Byte) = getRequest.typeIPv6 by decide),
      if_pos (show (3 : Byte) = getRequest.typeDm from rfl),
      slice_domain rsv L s hi lo _ hs hL]
  rw [hd]
  have hp : bigEndianUint16 [hi, lo] = 256 * hi.val + lo.val := by
    show hi.val * 256 + lo.val = 256 * hi.val + lo.val
    omega
  have hr : (frame rsv 3 (L :: s) hi lo).drop 3 = [3, L] ++ s ++ [hi, lo] := rfl
  have hj : joinHostPort s (itoa (256 * hi.val + lo.val)) =
      (if (58 : Byte) ∈ s then bytesOf "[" ++ s ++ bytesOf "]" else s) ++ bytesOf ":" ++
        itoa (256 * hi.val + lo.val) := by
    unfold joinHostPort
    by_cases hc : (58 : Byte) ∈ s
    · rw [if_pos hc, if_pos hc]
      have e1 : bytesOf "[" = [91] := by decide
      have e2 : bytesOf "]" = [93] := by decide
      have e3 : bytesOf ":" = [58] := by decide
      rw [e1, e2, e3]
      simp
    · rw [if_neg hc, if_neg hc]
      have e3 : bytesOf ":" = [58] := by decide
      rw [e3]
  simp only [if_true, hp, hr, hj]

/-- C7, as amended, applied to `len=11, "example.com", port=443`: the host is
"example.com:443". -/
theorem getRequest_host_domain_witness :
    (bytesOf "example.com").length = (11 : Byte).val ∧ (11 : Byte).val ≤ 250 ∧ 5 ≤ 7 ∧
      7 ≤ (frame 0 3 (11 :: bytesOf "example.com") 1 187).length ∧
      getRequest true (fun _ => [])
          ⟨frame 0 3 (11 :: bytesOf "example.com") 1 187 ++ [], 1, []⟩ 7 =
        (⟨[], 1, []⟩,
          Exec.returned
            ⟨[3, 11] ++ bytesOf "example.com" ++ [1, 187],
              (if (58 : Byte) ∈ bytesOf "example.com" then
                  bytesOf "[" ++ bytesOf "example.com" ++ bytesOf "]"
                else bytesOf "example.com") ++ bytesOf ":" ++
                itoa (256 * (1 : Byte).val + (187 : Byte).val),
              none⟩) ∧
      (if (58 : Byte) ∈ bytesOf "example.com" then
            bytesOf "[" ++ bytesOf "example.com" ++ bytesOf "]"
          else bytesOf "example.com") ++ bytesOf ":" ++
          itoa (256 * (1 : Byte).val + (187 : Byte).val) = bytesOf "example.com:443" :=
  ⟨by decide, by decide, by decide, by decide,
    getRequest_host_domain (fun _ => []) 0 11 (bytesOf "example.com") 1 187 [] 1 [] 7
      (by decide) (by decide) (by decide) (by decide),
    by decide⟩

/-- C7 as stated fails. In debug mode the well-formed domain-name request with
`L = 3`, name "a:b" and port 443 returns the host "[a:b]:443", which is not the
name followed by ':' and the port, "a:b:443". -/
theorem host_with_colon_is_bracketed :
    getRequest true (fun _ => []) ⟨frame 0 3 (3 :: bytesOf "a:b") 1 187, 1, []⟩ 10 =
        (⟨[], 1, []⟩,
          Exec.returned ⟨[3, 3] ++ bytesOf "a:b" ++ [1, 187], bytesOf "[a:b]:443", none⟩) ∧
      bytesOf "[a:b]:443" ≠ bytesOf "a:b" ++ bytesOf ":" ++ itoa (256 * 1 + 187) := by
  decide

/-- C10 fails on the code. In debug mode, on the well-formed domain-name
request with length byte 251 (258 bytes, read whole by the initial read), the
upper bound of the slice of line 165 is `5 + 251` computed in a byte, that is
0, below the lower bound 5: `getRequest` panics.  With `debug` unset the same
request is accepted. -/
theorem getRequest_domain_251_panics :
    ((Fin.ofNat getRequest.idDm0 : Byte) + 251).val = 0 ∧
      slice (List.replicate 263 (0 : Byte)) getRequest.idDm0 0 = none ∧
      getRequest true (fun _ => [])
          ⟨frame 0 3 (251 :: List.replicate 251 97) 1 187, 1, []⟩ 258 =
        (⟨[], 1, []⟩, Exec.panicked) ∧
      getRequest false (fun _ => [])
          ⟨frame 0 3 (251 :: List.replicate 251 97) 1 187, 1, []⟩ 258 =
        (⟨[], 1, []⟩,
          Exec.returned ⟨[3, 251] ++ List.replicate 251 97 ++ [1, 187], [], none⟩) := by
  decide

/-- Function `handShake` changes the trace only by the reply `[5, 0]`, and only when it
returns no error. -/
theorem handShake_log (c : Conn) (n₀ : Nat) :
    ((handShake c n₀).2 = Exec.returned none ∧
        (handShake c n₀).1.log = c.log ++ [Event.write [5, 0]]) ∨
      ((handShake c n₀).2 ≠ Exec.returned none ∧ (handShake c n₀).1.log = c.log) := by
  have hw : ∀ c' : Conn, c'.log = c.log →
      ((sendConfirmation c').2 = Exec.returned none ∧
          (sendConfirmation c').1.log = c.log ++ [Event.write [5, 0]]) ∨
        ((sendConfirmation c').2 ≠ Exec.returned none ∧ (sendConfirmation c').1.log = c.log) := by
    intro c' hc'
    unfold sendConfirmation connWrite
    cases hb : c'.wbudget with
    | zero => right; simp [hc']
    | succ k => left; simp [hc', socksVer5]
  unfold handShake
  dsimp only
  generalize List.replicate 258 (0 : Byte) = buf
  unfold readAtLeast
  split_ifs with h1 h2
  · right; simp
  · right; simp
  · dsimp only
    split_ifs with h3 h4 h5
    · right; simp
    · exact hw _ rfl
    · cases hsl : slice (copyAt buf 0 (List.take
          (Nat.max (handShake.idNmethod + 1) (Nat.min n₀ (Nat.min buf.length c.incoming.length)))
          c.incoming))
          (Nat.max (handShake.idNmethod + 1) (Nat.min n₀ (Nat.min buf.length c.incoming.length)))
          ((copyAt buf 0 (List.take
            (Nat.max (handShake.idNmethod + 1) (Nat.min n₀ (Nat.min buf.length c.incoming.length)))
            c.incoming)).getD handShake.idNmethod 0 + 2 : Nat) with
      | none => right; simp
      | some dst =>
        dsimp only
        unfold readFull
        split_ifs with h6
        · right; simp
        · exact hw _ rfl
    · right; simp

theorem finishRequest_conn (debug : Bool) (ipString : List Byte → List Byte) (c : Conn)
    (B : List Byte) (m : Nat) : (finishRequest debug ipString c B m).1 = c := by
  unfold finishRequest
  split
  · rfl
  · split
    · split <;> rfl
    · rfl

/-- Lines 145-171 leave the trace and the write budget as they were. -/
theorem completed_conn (debug : Bool) (ipString : List Byte → List Byte) (c : Conn)
    (buf : List Byte) (n reqLen : Nat) :
    ∀ r, r = (if n = reqLen then finishRequest debug ipString c buf reqLen
        else if n < reqLen then
          match slice buf n reqLen with
          | none => (c, Exec.panicked)
          | some dst =>
            match readFull c dst.length with
            | (c, Except.error e) => (c, Exec.returned ⟨[], [], some e⟩)
            | (c, Except.ok data) => finishRequest debug ipString c (copyAt buf n data) reqLen
        else (c, Exec.returned ⟨[], [], some Error.errReqExtraData⟩)) →
      r.1.log = c.log ∧ r.1.wbudget = c.wbudget := by
  intro r hr
  subst hr
  by_cases hx : n = reqLen
  · rw [if_pos hx, finishRequest_conn]
    exact ⟨rfl, rfl⟩
  · rw [if_neg hx]
    by_cases hlt : n < reqLen
    · rw [if_pos hlt]
      cases slice buf n reqLen with
      | none => exact ⟨rfl, rfl⟩
      | some dst =>
        dsimp only
        unfold readFull
        by_cases hav : c.incoming.length < dst.length
        · rw [if_pos hav]
          exact ⟨rfl, rfl⟩
        · rw [if_neg hav]
          dsimp only
          rw [finishRequest_conn]
          exact ⟨rfl, rfl⟩
    · rw [if_neg hlt]
      exact ⟨rfl, rfl⟩

/-- Function `getRequest` writes nothing: it leaves the trace and the write budget as
they were. -/
theorem getRequest_log (debug : Bool) (ipString : List Byte → List Byte) (c : Conn)
    (n₀ : Nat) :
    (getRequest debug ipString c n₀).1.log = c.log ∧
      (getRequest debug ipString c n₀).1.wbudget = c.wbudget := by
  unfold getRequest
  dsimp only
  generalize List.replicate 263 (0 : Byte) = buf
  unfold readAtLeast
  by_cases h1 : buf.length < getRequest.idDmLen + 1
  · rw [if_pos h1]
    exact ⟨rfl, rfl⟩
  · rw [if_neg h1]
    by_cases h2 : c.incoming.length < getRequest.idDmLen + 1
    · rw [if_pos h2]
      exact ⟨rfl, rfl⟩
    · rw [if_neg h2]
      dsimp only
      generalize Nat.max (getRequest.idDmLen + 1)
        (Nat.min n₀ (Nat.min buf.length c.incoming.length)) = n
      generalize copyAt buf 0 (List.take n c.incoming) = buf1
      split
      · exact ⟨rfl, rfl⟩
      · split
        · exact ⟨rfl, rfl⟩
        · generalize (if buf1.getD getRequest.idType 0 = getRequest.typeIPv4 then
              some getRequest.lenIPv4
            else if buf1.getD getRequest.idType 0 = getRequest.typeIPv6 then
              some getRequest.lenIPv6
            else if buf1.getD getRequest.idType 0 = getRequest.typeDm then
              some ((buf1.getD getRequest.idDmLen 0).val + getRequest.lenDmBase)
            else none) = ro
          cases ro with
          | none => exact ⟨rfl, rfl⟩
          | some reqLen =>
            exact completed_conn debug ipString
              ⟨List.drop n c.incoming, c.wbudget, c.log⟩ buf1 n reqLen _ rfl

/-- C8. In every session that ends at the dial failure (so `handShake` and
`getRequest` returned no error, the confirmation was written and the cipher was
created), the events of the session are, in this order: the write of `[5, 0]`,
the write of the fixed 10-byte success frame, the dial with the `rawaddr` that
`getRequest` returned, the close of the client connection.  So the bytes
written to the client are `[5, 0]` and the success frame, the frame is written
before the dial, nothing is written after it, and the client connection is
closed. -/
theorem handleConnection_dialFailed (env : Env) (c : Conn)
    (h : (handleConnection env c).2 = Path.dialFailed) :
    ∃ c₁ c₂ rawaddr host,
      handShake c env.n₁ = (c₁, Exec.returned none) ∧
      getRequest env.debug env.ipString c₁ env.n₂ = (c₂, Exec.returned ⟨rawaddr, host, none⟩) ∧
      (handleConnection env c).1.log =
        c.log ++ [Event.write [5, 0], Event.write [5, 0, 0, 1, 0, 0, 0, 0, 0x08, 0x43],
          Event.dial rawaddr false, Event.closeClient] := by
  have hl := handShake_log c env.n₁
  unfold handleConnection at h ⊢
  dsimp only at h ⊢
  rcases hhs : handShake c env.n₁ with ⟨c₁, e₁⟩
  rw [hhs] at h hl
  cases e₁ with
  | panicked => simp at h
  | returned o =>
    cases o with
    | some e => simp at h
    | none =>
      have hl1 : c₁.log = c.log ++ [Event.write [5, 0]] := by
        rcases hl with ⟨_, hl⟩ | ⟨hne, _⟩
        · exact hl
        · exact (hne rfl).elim
      have hg := getRequest_log env.debug env.ipString c₁ env.n₂
      rcases hgr : getRequest env.debug env.ipString c₁ env.n₂ with ⟨c₂, e₂⟩
      rw [hgr] at hg
      dsimp only at h ⊢
      rw [hgr] at h
      cases e₂ with
      | panicked => simp at h
      | returned r =>
        obtain ⟨rawaddr, host, err⟩ := r
        cases err with
        | some e => simp at h
        | none =>
          refine ⟨c₁, c₂, rawaddr, host, rfl, hgr, ?_⟩
          rw [hgr]
          dsimp only at h ⊢
          unfold connWrite at h ⊢
          cases hw : c₂.wbudget with
          | zero => rw [hw] at h; simp at h
          | succ k =>
            rw [hw] at h
            dsimp only at h ⊢
            cases hc : env.cipherOk with
            | false => rw [hc] at h; simp at h
            | true =>
              rw [hc] at h
              cases hd : env.dialOk with
              | true => rw [hd] at h; simp at h
              | false =>
                simp only [Bool.not_true, Bool.false_eq_true, if_false, Bool.not_false, if_true,
                  runDeferred, logEv, Bool.false_and, successFrame,
                  List.append_assoc, List.cons_append, List.nil_append]
                rw [show c₂.log = c₁.log from hg.1, hl1]
                simp only [List.append_assoc, List.cons_append, List.nil_append]

/-- C8, applied to the greeting `[5, 1, 0]` followed by the IPv4 request for
93.184.216.34:80, with a failing dial. -/
theorem handleConnection_dialFailed_witness :
    (handleConnection ⟨false, fun _ => [], 3, 10, true, false, false⟩
        ⟨[5, 1, 0, 5, 1, 0, 1, 93, 184, 216, 34, 0, 80], 2, []⟩).2 = Path.dialFailed ∧
      ∃ c₁ c₂ rawaddr host,
        handShake ⟨[5, 1, 0, 5, 1, 0, 1, 93, 184, 216, 34, 0, 80], 2, []⟩ 3 =
          (c₁, Exec.returned none) ∧
        getRequest false (fun _ => []) c₁ 10 = (c₂, Exec.returned ⟨rawaddr, host, none⟩) ∧
        (handleConnection ⟨false, fun _ => [], 3, 10, true, false, false⟩
            ⟨[5, 1, 0, 5, 1, 0, 1, 93, 184, 216, 34, 0, 80], 2, []⟩).1.log =
          [] ++ [Event.write [5, 0], Event.write [5, 0, 0, 1, 0, 0, 0, 0, 0x08, 0x43],
            Event.dial rawaddr false, Event.closeClient] :=
  ⟨by decide,
    handleConnection_dialFailed ⟨false, fun _ => [], 3, 10, true, false, false⟩
      ⟨[5, 1, 0, 5, 1, 0, 1, 93, 184, 216, 34, 0, 80], 2, []⟩ (by decide)⟩

/-- C9. On every path on which `handleConnection` ends other than the process
exit of line 209 (handshake failure, request failure, confirmation-write
failure, dial failure, relay completion, and also a panic), the trace of the
session holds exactly one close of the client connection, and exactly one close
of the upstream connection when it was opened, none otherwise. -/
theorem handleConnection_closes_once (env : Env) (incoming : List Byte) (w : Nat)
    (h : (handleConnection env ⟨incoming, w, []⟩).2 ≠ Path.exited) :
    (handleConnection env ⟨incoming, w, []⟩).1.log.count Event.closeClient = 1 ∧
      (handleConnection env ⟨incoming, w, []⟩).1.log.count Event.closeRemote =
        (if opened (handleConnection env ⟨incoming, w, []⟩).1.log then 1 else 0) := by
  have hl := handShake_log ⟨incoming, w, []⟩ env.n₁
  unfold handleConnection at h ⊢
  dsimp only at h ⊢
  rcases hhs : handShake ⟨incoming, w, []⟩ env.n₁ with ⟨c₁, e₁⟩
  rw [hhs] at h hl
  have hl' : c₁.log = [Event.write [5, 0]] ∨ c₁.log = [] := by
    rcases hl with ⟨_, hl⟩ | ⟨_, hl⟩
    · exact Or.inl hl
    · exact Or.inr hl
  have hfail : ∀ c' : Conn, c'.log = c₁.log →
      (runDeferred false false c').log.count Event.closeClient = 1 ∧
        (runDeferred false false c').log.count Event.closeRemote =
          (if opened (runDeferred false false c').log then 1 else 0) := by
    intro c' hc'
    rcases hl' with hq | hq <;>
      simp [runDeferred, logEv, hc', hq, opened, List.count_cons]
  cases e₁ with
  | panicked => exact hfail c₁ rfl
  | returned o =>
    cases o with
    | some e => exact hfail c₁ rfl
    | none =>
      have hl1 : c₁.log = [Event.write [5, 0]] := by
        rcases hl with ⟨_, hl⟩ | ⟨hne, _⟩
        · exact hl
        · exact (hne rfl).elim
      have hg := getRequest_log env.debug env.ipString c₁ env.n₂
      rcases hgr : getRequest env.debug env.ipString c₁ env.n₂ with ⟨c₂, e₂⟩
      rw [hgr] at hg
      have hg1 : c₂.log = c₁.log := hg.1
      dsimp only at h ⊢
      rw [hgr] at h ⊢
      cases e₂ with
      | panicked => exact hfail c₂ hg1
      | returned r =>
        obtain ⟨rawaddr, host, err⟩ := r
        cases err with
        | some e => exact hfail c₂ hg1
        | none =>
          dsimp only at h ⊢
          unfold connWrite at h ⊢
          cases hw : c₂.wbudget with
          | zero => exact hfail c₂ hg1
          | succ k =>
            rw [hw] at h
            dsimp only at h ⊢
            cases hc : env.cipherOk with
            | false => rw [hc] at h; simp at h
            | true =>
              cases hd : env.dialOk with
              | false =>
                simp [runDeferred, logEv, hg1, hl1, opened, List.count_cons]
              | true =>
                cases hf : env.clientFirst <;>
                  simp [runDeferred, relay, pipeThenClose, logEv, hg1, hl1, opened,
                    List.count_cons]

/-- C9, applied to a session that reaches the relay. -/
theorem handleConnection_closes_once_witness :
    (handleConnection ⟨false, fun _ => [], 3, 10, true, true, false⟩
        ⟨[5, 1, 0, 5, 1, 0, 1, 93, 184, 216, 34, 0, 80], 2, []⟩).2 ≠ Path.exited ∧
      (handleConnection ⟨false, fun _ => [], 3, 10, true, true, false⟩
          ⟨[5, 1, 0, 5, 1, 0, 1, 93, 184, 216, 34, 0, 80], 2, []⟩).1.log.count
            Event.closeClient = 1 ∧
      (handleConnection ⟨false, fun _ => [], 3, 10, true, true, false⟩
          ⟨[5, 1, 0, 5, 1, 0, 1, 93, 184, 216, 34, 0, 80], 2, []⟩).1.log.count
            Event.closeRemote =
        (if opened (handleConnection ⟨false, fun _ => [], 3, 10, true, true, false⟩
          ⟨[5, 1, 0, 5, 1, 0, 1, 93, 184, 216, 34, 0, 80], 2, []⟩).1.log then 1 else 0) :=
  ⟨by decide,
    handleConnection_closes_once ⟨false, fun _ => [], 3, 10, true, true, false⟩
      [5, 1, 0, 5, 1, 0, 1, 93, 184, 216, 34, 0, 80] 2 (by decide)⟩

/-- The slice `buf[n:msgLen]` of line 86 is always in range: `handShake` never
panics. -/
theorem handShake_never_panics (c : Conn) (n₀ : Nat) :
    (handShake c n₀).2 ≠ Exec.panicked := by
  have hlen : (List.replicate 258 (0 : Byte)).length = 258 := List.length_replicate _ _
  have hs : ∀ c' : Conn, (sendConfirmation c').2 ≠ Exec.panicked := by
    intro c'
    simp [sendConfirmation]
  unfold handShake
  dsimp only
  generalize List.replicate 258 (0 : Byte) = buf at hlen ⊢
  by_cases hshort : c.incoming.length < handShake.idNmethod + 1
  · rw [readAtLeast_short _ _ _ _ (by rw [hlen]; decide) hshort]
    simp
  · obtain ⟨n, h2, hb, hn, hr⟩ := readAtLeast_clamp c buf (handShake.idNmethod + 1) n₀
      (by rw [hlen]; decide) (by omega)
    rw [hr]
    dsimp only
    have hb1 : (copyAt buf 0 (List.take n c.incoming)).length = 258 := by
      rw [copyAt_length _ _ _ (by simp only [List.length_take]; omega), hlen]
    have hN := ((copyAt buf 0 (List.take n c.incoming)).getD handShake.idNmethod 0).isLt
    split
    · simp
    · split
      · exact hs _
      · split
        · rw [slice_some _ _ _ (by omega) (by omega)]
          dsimp only
          unfold readFull
          split
          · simp
          · exact hs _
        · simp

/-- With `debug` unset, the slices `buf[n:reqLen]` of line 148 and
`buf[3:reqLen]` of line 156 are always in range: `getRequest` never panics. -/
theorem getRequest_never_panics (ipString : List Byte → List Byte) (c : Conn) (n₀ : Nat) :
    (getRequest false ipString c n₀).2 ≠ Exec.panicked := by
  have hlen : (List.replicate 263 (0 : Byte)).length = 263 := List.length_replicate _ _
  have hfin : ∀ (c' : Conn) (B : List Byte) (m : Nat), B.length = 263 → 3 ≤ m → m ≤ 263 →
      (finishRequest false ipString c' B m).2 ≠ Exec.panicked := by
    intro c' B m hB h3 hm
    unfold finishRequest
    rw [show slice B getRequest.idType m = some ((B.take m).drop 3) from
      slice_some B 3 m h3 (by omega)]
    simp
  unfold getRequest
  dsimp only
  generalize List.replicate 263 (0 : Byte) = buf at hlen ⊢
  by_cases hshort : c.incoming.length < getRequest.idDmLen + 1
  · rw [readAtLeast_short _ _ _ _ (by rw [hlen]; decide) hshort]
    simp
  · obtain ⟨n, h5, hb, hn, hr⟩ := readAtLeast_clamp c buf (getRequest.idDmLen + 1) n₀
      (by rw [hlen]; decide) (by omega)
    rw [hr]
    dsimp only
    have hb1 : (copyAt buf 0 (List.take n c.incoming)).length = 263 := by
      rw [copyAt_length _ _ _ (by simp only [List.length_take]; omega), hlen]
    generalize copyAt buf 0 (List.take n c.incoming) = buf1 at hb1 ⊢
    have hL := (buf1.getD getRequest.idDmLen 0).isLt
    have hreq : ∀ reqLen, (if buf1.getD getRequest.idType 0 = getRequest.typeIPv4 then
          some getRequest.lenIPv4
        else if buf1.getD getRequest.idType 0 = getRequest.typeIPv6 then
          some getRequest.lenIPv6
        else if buf1.getD getRequest.idType 0 = getRequest.typeDm then
          some ((buf1.getD getRequest.idDmLen 0).val + getRequest.lenDmBase)
        else none) = some reqLen → 7 ≤ reqLen ∧ reqLen ≤ 262 := by
      intro reqLen
      simp only [getRequest.lenIPv4, getRequest.lenIPv6, getRequest.lenDmBase,
        getRequest.IPv4len, getRequest.IPv6len]
      split
      · intro h; simp only [Option.some.injEq] at h; omega
      · split
        · intro h; simp only [Option.some.injEq] at h; omega
        · split
          · intro h; simp only [Option.some.injEq] at h; omega
          · intro h; simp at h
    split
    · simp
    · split
      · simp
      · generalize (if buf1.getD getRequest.idType 0 = getRequest.typeIPv4 then
            some getRequest.lenIPv4
          else if buf1.getD getRequest.idType 0 = getRequest.typeIPv6 then
            some getRequest.lenIPv6
          else if buf1.getD getRequest.idType 0 = getRequest.typeDm then
            some ((buf1.getD getRequest.idDmLen 0).val + getRequest.lenDmBase)
          else none) = ro at hreq
        cases ro with
        | none => simp
        | some reqLen =>
          have hq := hreq reqLen rfl
          dsimp only
          split
          · exact hfin _ _ _ hb1 (by omega) (by omega)
          · split
            · rw [slice_some _ _ _ (by omega) (by omega)]
              dsimp only
              have hk : ((List.take reqLen buf1).drop n).length = reqLen - n := by
                rw [List.length_drop, List.length_take]; omega
              rw [hk]
              by_cases hav : (List.drop n c.incoming).length < reqLen - n
              · have : readFull ⟨List.drop n c.incoming, c.wbudget, c.log⟩ (reqLen - n) =
                    (⟨[], c.wbudget, c.log⟩, Except.error Error.errConn) := by
                  unfold readFull; rw [if_pos hav]
                rw [this]
                simp
              · rw [readFull_exact _ _ (by dsimp only; omega)]
                dsimp only
                refine hfin _ _ _ ?_ (by omega) (by omega)
                rw [copyAt_length _ _ _ ?_, hb1]
                rw [List.length_take, hb1]
                omega
            · simp

end GoSpider
